import Mathlib

/-!
Shallow embedding of the pomelo2-globalchannel membership registry.

The embedded code is the canonical registry variant of the repository:
`ChannelManager` (redis-backed membership index with key families
`c#channel` (hash user -> server), `s#channel:server` (set of users) and
`u#user` (hash channel -> server)), the `ChannelService` facade with its
`Inited/Started/Closed` lifecycle gate, the startup cleanup sweep and the
`pushMessage` fan-out.

The redis store is modelled as an association list from full key strings to
values that are either hashes (association lists of fields) or sets (lists of
members).  Following the ioredis client used by the source, every data
command (hget/hset/hdel/sadd/srem/smembers/hkeys/hexists/hlen/del) prepends
the configured key prefix to its key arguments, while SCAN patterns and the
keys SCAN returns are raw database keys (ioredis does not prefix them).
-/

namespace GlobalChannel

/-- JS truthiness of an optional string: null/undefined and the empty string
are falsy, every other string is truthy. -/
def truthy : Option String → Bool
  | none => false
  | some s => s != ""

/-- Association-list lookup of the first binding of a key. -/
def alookup {α : Type} : List (String × α) → String → Option α
  | [], _ => none
  | (k', v) :: t, k => if k' = k then some v else alookup t k

/-- Insert or update a binding, keeping the position of an existing binding. -/
def aset {α : Type} : List (String × α) → String → α → List (String × α)
  | [], k, v => [(k, v)]
  | (k', v') :: t, k, v => if k' = k then (k, v) :: t else (k', v') :: aset t k v

/-- Remove the bindings of a key. -/
def aremove {α : Type} : List (String × α) → String → List (String × α)
  | [], _ => []
  | (k', v') :: t, k => if k' = k then aremove t k else (k', v') :: aremove t k

/-- Add an element to a set kept as a list (redis SADD: no-op when present,
append otherwise). -/
def slAdd (l : List String) (x : String) : List String :=
  if x ∈ l then l else l ++ [x]

/-- Remove an element from a set kept as a list (redis SREM). -/
def slRem (l : List String) (x : String) : List String :=
  l.filter (fun y => y ≠ x)

/-- A redis value: a hash (field -> value) or a set of strings. -/
inductive RVal
  | hash (fields : List (String × String))
  | rset (elems : List String)
deriving DecidableEq

/-- The redis database: full key -> value. -/
abbrev Store := List (String × RVal)

/-- The hash stored at a full key (empty when the key is absent). -/
def hashAt (st : Store) (k : String) : List (String × String) :=
  match alookup st k with
  | some (RVal.hash f) => f
  | _ => []

/-- The set stored at a full key (empty when the key is absent). -/
def setAt (st : Store) (k : String) : List String :=
  match alookup st k with
  | some (RVal.rset e) => e
  | _ => []

/-- redis HGET, with the ioredis key prefix prepended to the key. -/
def hget (pre : String) (st : Store) (k f : String) : Option String :=
  alookup (hashAt st (pre ++ k)) f

/-- redis HSET, with the ioredis key prefix prepended to the key. -/
def hset (pre : String) (st : Store) (k f v : String) : Store :=
  aset st (pre ++ k) (RVal.hash (aset (hashAt st (pre ++ k)) f v))

/-- redis HDEL of one field; redis drops a hash key that becomes empty. -/
def hdel (pre : String) (st : Store) (k f : String) : Store :=
  let fs := aremove (hashAt st (pre ++ k)) f
  if fs.isEmpty then aremove st (pre ++ k) else aset st (pre ++ k) (RVal.hash fs)

/-- redis HKEYS. -/
def hkeys (pre : String) (st : Store) (k : String) : List String :=
  (hashAt st (pre ++ k)).map (fun p => p.1)

/-- redis HEXISTS. -/
def hexists (pre : String) (st : Store) (k f : String) : Bool :=
  (alookup (hashAt st (pre ++ k)) f).isSome

/-- redis HLEN. -/
def hlen (pre : String) (st : Store) (k : String) : Nat :=
  (hashAt st (pre ++ k)).length

/-- redis SADD. -/
def sadd (pre : String) (st : Store) (k x : String) : Store :=
  aset st (pre ++ k) (RVal.rset (slAdd (setAt st (pre ++ k)) x))

/-- redis SREM; redis drops a set key that becomes empty. -/
def srem (pre : String) (st : Store) (k x : String) : Store :=
  let e := slRem (setAt st (pre ++ k)) x
  if e.isEmpty then aremove st (pre ++ k) else aset st (pre ++ k) (RVal.rset e)

/-- redis SMEMBERS. -/
def smembers (pre : String) (st : Store) (k : String) : List String :=
  setAt st (pre ++ k)

/-- redis DEL of several keys; ioredis prepends the key prefix to every
argument. -/
def delKeys (pre : String) (st : Store) (ks : List String) : Store :=
  ks.foldl (fun acc k => aremove acc (pre ++ k)) st

/-- The `c#channel` key of the channel -> (user -> server) hash. -/
def cKey (channel : String) : String := "c#" ++ channel

/-- The `u#user` key of the user -> (channel -> server) hash. -/
def uKey (uid : String) : String := "u#" ++ uid

/-- The `s#channel:server` key of the per-server member set. -/
def sKey (channel sid : String) : String := "s#" ++ channel ++ ":" ++ sid

/-- The state of a `ChannelManager`: its configured key prefix, whether
`this.redis` is set, and the redis database contents. -/
structure MgrState where
  pre : String
  redisUp : Bool
  store : Store
deriving DecidableEq

/-- Embeds `ChannelManager.add(name, uid, sid)`: reads the user's current server for
the channel from the `u#` hash, and when one is recorded removes the user from
the `s#name:sid` set (the source passes the new `sid`, not the recorded old
server); then writes the three index entries. -/
def mAdd (m : MgrState) (name uid sid : String) : MgrState :=
  if m.redisUp then
    let o := hget m.pre m.store (uKey uid) name
    let st0 := if truthy o then srem m.pre m.store (sKey name sid) uid else m.store
    let st1 := hset m.pre st0 (uKey uid) name sid
    let st2 := sadd m.pre st1 (sKey name sid) uid
    let st3 := hset m.pre st2 (cKey name) uid sid
    { m with store := st3 }
  else m

/-- Embeds `ChannelManager.leave(channel, uid, sid?)`: a falsy `sid` argument is
replaced by the server recorded in the `u#` hash; then the `u#` and `c#`
hash entries are deleted and, when the resolved server is truthy, the user is
removed from the `s#channel:sid` set. -/
def mLeave (m : MgrState) (channel uid : String) (sid0 : Option String) : MgrState :=
  if m.redisUp then
    let sid := if truthy sid0 then sid0 else hget m.pre m.store (uKey uid) channel
    let st1 := hdel m.pre m.store (uKey uid) channel
    let st2 := hdel m.pre st1 (cKey channel) uid
    let st3 := if truthy sid then srem m.pre st2 (sKey channel (sid.getD "")) uid else st2
    { m with store := st3 }
  else m

/-- Embeds `ChannelManager.members(channel, serverId?)`: with a truthy server id the
`s#channel:serverId` set, otherwise the field names of the `c#channel` hash;
undefined when the redis handle is missing. -/
def mMembers (m : MgrState) (channel : String) (serverId : Option String) :
    Option (List String) :=
  if m.redisUp then
    if truthy serverId then some (smembers m.pre m.store (sKey channel (serverId.getD "")))
    else some (hkeys m.pre m.store (cKey channel))
  else none

/-- Embeds `ChannelManager.ismember(channel, uid)`: HEXISTS on the `c#channel` hash. -/
def mIsmember (m : MgrState) (channel uid : String) : Option Bool :=
  if m.redisUp then some (hexists m.pre m.store (cKey channel) uid) else none

/-- Embeds `ChannelManager.channels(uid)`: the field names of the `u#uid` hash
(the empty list when the redis handle is missing). -/
def mChannels (m : MgrState) (uid : String) : List String :=
  if m.redisUp then hkeys m.pre m.store (uKey uid) else []

/-- Embeds `ChannelManager.len(channel)`: HLEN on the `c#channel` hash. -/
def mLen (m : MgrState) (channel : String) : Option Nat :=
  if m.redisUp then some (hlen m.pre m.store (cKey channel)) else none

/-- Embeds `ChannelManager.destroy(channel)`: enumerates the channel members via
`members(channel)` and issues `leave(channel, uid)` (no server argument) for
each of them. -/
def mDestroy (m : MgrState) (channel : String) : MgrState :=
  if m.redisUp then
    let ms := (mMembers m channel none).getD []
    ms.foldl (fun acc uid => mLeave acc channel uid none) m
  else m

/-- Whether `pre` is a leading prefix of `k` (the SCAN pattern `pre*`). -/
def strHasPre (pre k : String) : Bool :=
  pre.data.isPrefixOf k.data

/-- The JS `k.replace(keyPrefix, '')` as applied by the cleanup filter: the
filter only sees keys that matched the SCAN pattern `keyPrefix*`, for which
the first occurrence of the prefix is the leading one, so the replacement
drops the leading prefix. -/
def stripFirst (pre k : String) : String :=
  if strHasPre pre k then String.mk (k.data.drop pre.data.length) else k

/-- One page of the cleanup sweep: the SCAN result is filtered by the pattern
`keyPrefix*`, then by JS truthiness of the key and of the key with the prefix
removed; the surviving keys are passed to `redis.del`, which prepends the
ioredis key prefix to each of them again. -/
def cleanupStep (pre : String) (st : Store) (page : List String) : Store :=
  let batch := page.filter (fun k => strHasPre pre k)
  let keys := batch.filter (fun k => k != "" && stripFirst pre k != "")
  if keys.isEmpty then st else delKeys pre st keys

/-- The cursor loop of `ChannelManager.cleanup`: pages of at most 100 keys of
a snapshot of the database keyspace are processed until the cursor returns to
zero; the fuel argument (instantiated with the snapshot length, an upper
bound on the number of pages) only makes the recursion structural. -/
def cleanupGo (pre : String) : Nat → List String → Store → Store
  | _, [], st => st
  | 0, _ :: _, st => st
  | Nat.succ n, k :: ks, st =>
    cleanupGo pre n ((k :: ks).drop 100) (cleanupStep pre st ((k :: ks).take 100))

/-- Embeds `ChannelManager.cleanup()`: the paged scan-and-delete sweep over all keys
matching `keyPrefix*`, over a snapshot of the keyspace. -/
def mCleanup (m : MgrState) : MgrState :=
  if m.redisUp then
    let snapshot := m.store.map (fun p => p.1)
    { m with store := cleanupGo m.pre snapshot.length snapshot m.store }
  else m

/-- The `STATE` enum of the service. -/
inductive STATE
  | inited
  | started
  | closed
deriving DecidableEq

/-- The state of a `ChannelService`: the lifecycle state, the
`cleanOnStartUp` option and the manager. -/
structure SvcState where
  state : STATE
  cleanOnStartUp : Bool
  mgr : MgrState
deriving DecidableEq

/-- Embeds `ChannelService.start`: the manager connects (the model takes the
connection-ready path), the ready callback sets the state to Started, and
with `cleanOnStartUp` the cleanup sweep runs before the start callback is
signalled. -/
def svcStart (s : SvcState) : SvcState :=
  let m1 : MgrState := { s.mgr with redisUp := true }
  let s1 : SvcState := { s with state := STATE.started, mgr := m1 }
  if s.cleanOnStartUp then { s1 with mgr := mCleanup m1 } else s1

/-- Embeds `ChannelService.stop(force)`: sets the state to Closed and quits the
redis connection (the `this.redis` field stays set). -/
def svcStop (s : SvcState) (_force : Bool) : SvcState :=
  { s with state := STATE.closed }

/-- Embeds `ChannelService.add`: gated on the Started state. -/
def svcAdd (s : SvcState) (channel uid serverId : String) : SvcState :=
  if s.state ≠ STATE.started then s
  else { s with mgr := mAdd s.mgr channel uid serverId }

/-- Embeds `ChannelService.leave`: gated on the Started state. -/
def svcLeave (s : SvcState) (channel uid : String) (sid : Option String) : SvcState :=
  if s.state ≠ STATE.started then s
  else { s with mgr := mLeave s.mgr channel uid sid }

/-- Embeds `ChannelService.destroy`: gated on the Started state. -/
def svcDestroy (s : SvcState) (channel : String) : SvcState :=
  if s.state ≠ STATE.started then s
  else { s with mgr := mDestroy s.mgr channel }

/-- Embeds `ChannelService.len`: gated on the Started state (undefined otherwise). -/
def svcLen (s : SvcState) (channel : String) : Option Nat :=
  if s.state ≠ STATE.started then none else mLen s.mgr channel

/-- Embeds `ChannelService.members`: gated on the Started state. -/
def svcMembers (s : SvcState) (channel : String) (serverId : Option String) :
    Option (List String) :=
  if s.state ≠ STATE.started then none else mMembers s.mgr channel serverId

/-- Embeds `ChannelService.ismember`: gated on the Started state. -/
def svcIsmember (s : SvcState) (channel uid : String) : Option Bool :=
  if s.state ≠ STATE.started then none else mIsmember s.mgr channel uid

/-- Embeds `ChannelService.channels`: gated on the Started state. -/
def svcChannels (s : SvcState) (uid : String) : Option (List String) :=
  if s.state ≠ STATE.started then none else some (mChannels s.mgr uid)

/-- The per-server member list the service observes for a channel: the result
of the members query for that server id, the empty list when the query yields
none. -/
def memberList (s : SvcState) (channel sid : String) : List String :=
  (svcMembers s channel (some sid)).getD []

/-- One RPC envelope issued by `pushMessage` through `app.rpcInvoke`. -/
structure RpcCall where
  serverId : String
  ns : String
  service : String
  method : String
  route : String
  msg : String
  uids : List String
  isPush : Bool
deriving DecidableEq

/-- One iteration of the `pushMessage` server loop: the member list of the
channel on that server is looked up through the service's own members query;
when it is non-empty the uids are appended to the running aggregate and a
`sys/channelRemote/pushMessage` envelope is issued to the server. -/
def pushStep (s : SvcState) (channel route msg : String)
    (acc : List String × List RpcCall) (sid : String) : List String × List RpcCall :=
  match svcMembers s channel (some sid) with
  | some uids =>
    if uids.isEmpty then acc
    else
      (acc.1 ++ uids,
        acc.2 ++ [{ serverId := sid, ns := "sys", service := "channelRemote",
                    method := "pushMessage", route := route, msg := msg,
                    uids := uids, isPush := true }])
  | none => acc

/-- Embeds `ChannelService.pushMessage`: gated on the Started state; resolves the
target servers through the cluster directory, loops over them in order, and
returns the aggregated list of targeted uids together with the RPC envelopes
issued. -/
def svcPushMessage (app : String → List String) (s : SvcState)
    (serverType route msg channel : String) : Option (List String) × List RpcCall :=
  if s.state ≠ STATE.started then (none, [])
  else
    let servers := app serverType
    if servers.isEmpty then (none, [])
    else
      let r := servers.foldl (pushStep s channel route msg) ([], [])
      (some r.1, r.2)

/-- The facade operations as a step alphabet for the lifecycle machine. -/
inductive SvcOp
  | startOp
  | stopOp (force : Bool)
  | addOp (channel uid serverId : String)
  | leaveOp (channel uid : String) (sid : Option String)
  | destroyOp (channel : String)
  | lenOp (channel : String)
  | membersOp (channel : String) (serverId : Option String)
  | ismemberOp (channel uid : String)
  | channelsOp (uid : String)
  | pushMessageOp (serverType route msg channel : String)

/-- The state transition of one facade operation (query operations and
`pushMessage` perform no state mutation in the source). -/
def svcStep (s : SvcState) : SvcOp → SvcState
  | SvcOp.startOp => svcStart s
  | SvcOp.stopOp f => svcStop s f
  | SvcOp.addOp c u sid => svcAdd s c u sid
  | SvcOp.leaveOp c u sid => svcLeave s c u sid
  | SvcOp.destroyOp c => svcDestroy s c
  | SvcOp.lenOp _ => s
  | SvcOp.membersOp _ _ => s
  | SvcOp.ismemberOp _ _ => s
  | SvcOp.channelsOp _ => s
  | SvcOp.pushMessageOp _ _ _ _ => s

/-- Run a sequence of facade operations. -/
def svcRun (s : SvcState) (ops : List SvcOp) : SvcState :=
  ops.foldl svcStep s

/-- The state a list of (user, server) joins produces on channel `c`,
starting from a freshly connected manager with an empty database. -/
def buildAdds (pre c : String) (pairs : List (String × String)) : MgrState :=
  pairs.foldl (fun acc p => mAdd acc c p.1 p.2) { pre := pre, redisUp := true, store := [] }

end GlobalChannel

namespace GlobalChannel

theorem alookup_aset_self {α : Type} (l : List (String × α)) (k : String) (v : α) :
    alookup (aset l k v) k = some v := by
  induction l with
  | nil => simp [aset, alookup]
  | cons p t ih =>
    by_cases hp : p.1 = k
    · simp [aset, hp, alookup]
    · simpa [aset, hp, alookup] using ih

theorem alookup_aset_ne {α : Type} (l : List (String × α)) (k k' : String) (v : α)
    (h : k' ≠ k) : alookup (aset l k v) k' = alookup l k' := by
  have hkk : ¬(k = k') := fun he => h he.symm
  induction l with
  | nil => simp [aset, alookup, hkk]
  | cons p t ih =>
    by_cases hp : p.1 = k
    · simp [aset, hp, alookup, hkk]
    · simp only [aset, hp, if_false, alookup]
      by_cases hp' : p.1 = k'
      · simp [hp']
      · simp [hp', ih]

theorem alookup_aremove_self {α : Type} (l : List (String × α)) (k : String) :
    alookup (aremove l k) k = none := by
  induction l with
  | nil => simp [aremove, alookup]
  | cons p t ih =>
    by_cases hp : p.1 = k
    · simpa [aremove, hp] using ih
    · simpa [aremove, hp, alookup] using ih

theorem alookup_aremove_ne {α : Type} (l : List (String × α)) (k k' : String)
    (h : k' ≠ k) : alookup (aremove l k) k' = alookup l k' := by
  have hkk : ¬(k = k') := fun he => h he.symm
  induction l with
  | nil => simp [aremove]
  | cons p t ih =>
    by_cases hp : p.1 = k
    · simp [aremove, hp, alookup, hkk, ih]
    · simp only [aremove, hp, if_false, alookup]
      by_cases hp' : p.1 = k'
      · simp [hp']
      · simp [hp', ih]

theorem mem_of_mem_aremove {α : Type} {l : List (String × α)} {k : String}
    {p : String × α} (h : p ∈ aremove l k) : p ∈ l ∧ p.1 ≠ k := by
  induction l with
  | nil => simp [aremove] at h
  | cons q t ih =>
    by_cases hq : q.1 = k
    · simp only [aremove, hq, if_true] at h
      exact ⟨List.mem_cons_of_mem _ (ih h).1, (ih h).2⟩
    · simp only [aremove, hq, if_false, List.mem_cons] at h
      rcases h with h | h
      · exact ⟨by simp [h], by simp [h, hq]⟩
      · exact ⟨List.mem_cons_of_mem _ (ih h).1, (ih h).2⟩

theorem alookup_eq_none_of_forall {α : Type} {l : List (String × α)} {k : String}
    (h : ∀ p ∈ l, p.1 ≠ k) : alookup l k = none := by
  induction l with
  | nil => rfl
  | cons q t ih =>
    have hq : q.1 ≠ k := h q (List.mem_cons_self _ _)
    simp only [alookup, hq, if_false]
    exact ih (fun p hp => h p (List.mem_cons_of_mem _ hp))

theorem not_mem_keys_of_alookup_none {α : Type} {l : List (String × α)} {k : String}
    (h : alookup l k = none) : k ∉ l.map (fun p => p.1) := by
  induction l with
  | nil => simp
  | cons q t ih =>
    by_cases hq : q.1 = k
    · simp [alookup, hq] at h
    · simp only [alookup, hq, if_false] at h
      have hkq : ¬(k = q.1) := fun he => hq he.symm
      simp [hkq, ih h]

theorem mem_keys_aset_of_ne {α : Type} (l : List (String × α)) (k k' : String) (v : α)
    (h : k' ≠ k) : (k' ∈ (aset l k v).map (fun p => p.1)) ↔ (k' ∈ l.map (fun p => p.1)) := by
  have hkk : ¬(k = k') := fun he => h he.symm
  induction l with
  | nil => simp [aset, h, hkk]
  | cons p t ih =>
    by_cases hp : p.1 = k
    · simp [aset, hp, h, hkk]
    · simp [aset, hp, ih]

theorem mem_keys_aset_self {α : Type} (l : List (String × α)) (k : String) (v : α) :
    k ∈ (aset l k v).map (fun p => p.1) := by
  induction l with
  | nil => simp [aset]
  | cons p t ih =>
    by_cases hp : p.1 = k
    · simp [aset, hp]
    · simp only [aset, hp, if_false, List.map, List.mem_cons]
      right
      exact ih

theorem mem_slAdd_self (l : List String) (x : String) : x ∈ slAdd l x := by
  by_cases h : x ∈ l <;> simp [slAdd, h]

theorem mem_slAdd_of_ne {l : List String} {x y : String} (h : y ≠ x) :
    (y ∈ slAdd l x) ↔ (y ∈ l) := by
  by_cases hx : x ∈ l <;> simp [slAdd, hx, h]

theorem not_mem_slRem_self (l : List String) (x : String) : x ∉ slRem l x := by
  simp [slRem]

theorem mem_slRem_of_ne {l : List String} {x y : String} (h : y ≠ x) :
    (y ∈ slRem l x) ↔ (y ∈ l) := by
  simp [slRem, h]

theorem mem_of_mem_slRem {l : List String} {x y : String} (h : y ∈ slRem l x) :
    y ∈ l ∧ y ≠ x := by
  simpa [slRem] using h

theorem string_data_inj {a b : String} (h : a.data = b.data) : a = b := by
  cases a
  cases b
  exact congrArg String.mk h

theorem string_append_right_cancel {x s s' : String} (h : x ++ s = x ++ s') : s = s' := by
  have h2 : x.data ++ s.data = x.data ++ s'.data := congrArg String.data h
  exact string_data_inj (List.append_cancel_left h2)

theorem string_append_ne_right {x s s' : String} (h : s ≠ s') : x ++ s ≠ x ++ s' :=
  fun he => h (string_append_right_cancel he)

theorem cKey_inj {a b : String} (h : cKey a = cKey b) : a = b :=
  string_data_inj (congrArg (fun t => t.data.drop 2) h)

theorem uKey_inj {a b : String} (h : uKey a = uKey b) : a = b :=
  string_data_inj (congrArg (fun t => t.data.drop 2) h)

theorem cKey_ne_uKey (a b : String) : cKey a ≠ uKey b := by
  intro h
  have h2 : some 'c' = some 'u' := congrArg (fun t => t.data.head?) h
  exact absurd (Option.some.inj h2) (by decide)

theorem cKey_ne_sKey (a c s : String) : cKey a ≠ sKey c s := by
  intro h
  have h2 : some 'c' = some 's' := congrArg (fun t => t.data.head?) h
  exact absurd (Option.some.inj h2) (by decide)

theorem uKey_ne_sKey (a c s : String) : uKey a ≠ sKey c s := by
  intro h
  have h2 : some 'u' = some 's' := congrArg (fun t => t.data.head?) h
  exact absurd (Option.some.inj h2) (by decide)

theorem sKey_fixed_inj {c s s' : String} (h : sKey c s = sKey c s') : s = s' :=
  string_append_right_cancel h

end GlobalChannel

namespace GlobalChannel

theorem hashAt_aset_hash (st : Store) (K : String) (f : List (String × String)) :
    hashAt (aset st K (RVal.hash f)) K = f := by
  simp [hashAt, alookup_aset_self]

theorem hashAt_aset_ne (st : Store) (K K' : String) (v : RVal) (h : K' ≠ K) :
    hashAt (aset st K v) K' = hashAt st K' := by
  simp [hashAt, alookup_aset_ne _ _ _ _ h]

theorem hashAt_aremove_ne (st : Store) (K K' : String) (h : K' ≠ K) :
    hashAt (aremove st K) K' = hashAt st K' := by
  simp [hashAt, alookup_aremove_ne _ _ _ h]

theorem setAt_aset_rset (st : Store) (K : String) (e : List String) :
    setAt (aset st K (RVal.rset e)) K = e := by
  simp [setAt, alookup_aset_self]

theorem setAt_aset_ne (st : Store) (K K' : String) (v : RVal) (h : K' ≠ K) :
    setAt (aset st K v) K' = setAt st K' := by
  simp [setAt, alookup_aset_ne _ _ _ _ h]

theorem setAt_aremove_ne (st : Store) (K K' : String) (h : K' ≠ K) :
    setAt (aremove st K) K' = setAt st K' := by
  simp [setAt, alookup_aremove_ne _ _ _ h]

theorem hashAt_hset_self (pre : String) (st : Store) (k f v : String) :
    hashAt (hset pre st k f v) (pre ++ k) = aset (hashAt st (pre ++ k)) f v := by
  simp [hset, hashAt_aset_hash]

theorem hashAt_hset_ne (pre : String) (st : Store) (k f v k' : String) (h : k' ≠ k) :
    hashAt (hset pre st k f v) (pre ++ k') = hashAt st (pre ++ k') :=
  hashAt_aset_ne _ _ _ _ (string_append_ne_right h)

theorem setAt_hset_ne (pre : String) (st : Store) (k f v k' : String) (h : k' ≠ k) :
    setAt (hset pre st k f v) (pre ++ k') = setAt st (pre ++ k') :=
  setAt_aset_ne _ _ _ _ (string_append_ne_right h)

theorem hashAt_hdel_self (pre : String) (st : Store) (k f : String) :
    hashAt (hdel pre st k f) (pre ++ k) = aremove (hashAt st (pre ++ k)) f := by
  simp only [hdel]
  by_cases hfs : (aremove (hashAt st (pre ++ k)) f).isEmpty
  · simp only [hfs, if_true]
    have h1 : hashAt (aremove st (pre ++ k)) (pre ++ k) = [] := by
      simp [hashAt, alookup_aremove_self]
    rw [h1]
    exact (List.isEmpty_iff.mp hfs).symm
  · simp only [hfs, if_false]
    exact hashAt_aset_hash _ _ _

theorem hashAt_hdel_ne (pre : String) (st : Store) (k f k' : String) (h : k' ≠ k) :
    hashAt (hdel pre st k f) (pre ++ k') = hashAt st (pre ++ k') := by
  simp only [hdel]
  split
  · exact hashAt_aremove_ne _ _ _ (string_append_ne_right h)
  · exact hashAt_aset_ne _ _ _ _ (string_append_ne_right h)

theorem setAt_hdel_ne (pre : String) (st : Store) (k f k' : String) (h : k' ≠ k) :
    setAt (hdel pre st k f) (pre ++ k') = setAt st (pre ++ k') := by
  simp only [hdel]
  split
  · exact setAt_aremove_ne _ _ _ (string_append_ne_right h)
  · exact setAt_aset_ne _ _ _ _ (string_append_ne_right h)

theorem setAt_sadd_self (pre : String) (st : Store) (k x : String) :
    setAt (sadd pre st k x) (pre ++ k) = slAdd (setAt st (pre ++ k)) x := by
  simp [sadd, setAt_aset_rset]

theorem setAt_sadd_ne (pre : String) (st : Store) (k x k' : String) (h : k' ≠ k) :
    setAt (sadd pre st k x) (pre ++ k') = setAt st (pre ++ k') :=
  setAt_aset_ne _ _ _ _ (string_append_ne_right h)

theorem hashAt_sadd_ne (pre : String) (st : Store) (k x k' : String) (h : k' ≠ k) :
    hashAt (sadd pre st k x) (pre ++ k') = hashAt st (pre ++ k') :=
  hashAt_aset_ne _ _ _ _ (string_append_ne_right h)

theorem setAt_srem_self (pre : String) (st : Store) (k x : String) :
    setAt (srem pre st k x) (pre ++ k) = slRem (setAt st (pre ++ k)) x := by
  simp only [srem]
  by_cases he : (slRem (setAt st (pre ++ k)) x).isEmpty
  · simp only [he, if_true]
    have h1 : setAt (aremove st (pre ++ k)) (pre ++ k) = [] := by
      simp [setAt, alookup_aremove_self]
    rw [h1]
    exact (List.isEmpty_iff.mp he).symm
  · simp only [he, if_false]
    exact setAt_aset_rset _ _ _

theorem setAt_srem_ne (pre : String) (st : Store) (k x k' : String) (h : k' ≠ k) :
    setAt (srem pre st k x) (pre ++ k') = setAt st (pre ++ k') := by
  simp only [srem]
  split
  · exact setAt_aremove_ne _ _ _ (string_append_ne_right h)
  · exact setAt_aset_ne _ _ _ _ (string_append_ne_right h)

theorem hashAt_srem_ne (pre : String) (st : Store) (k x k' : String) (h : k' ≠ k) :
    hashAt (srem pre st k x) (pre ++ k') = hashAt st (pre ++ k') := by
  simp only [srem]
  split
  · exact hashAt_aremove_ne _ _ _ (string_append_ne_right h)
  · exact hashAt_aset_ne _ _ _ _ (string_append_ne_right h)

/-- The hash the manager observes at an unprefixed key. -/
def mgrHash (m : MgrState) (k : String) : List (String × String) :=
  hashAt m.store (m.pre ++ k)

/-- The set the manager observes at an unprefixed key. -/
def mgrSet (m : MgrState) (k : String) : List String :=
  setAt m.store (m.pre ++ k)

/-- The server `leave` resolves: the passed one when truthy, else the one
recorded in the `u#` hash (the JS `sid = sid || await hget(...)`). -/
def leaveSid (m : MgrState) (channel uid : String) (sid0 : Option String) : Option String :=
  if truthy sid0 then sid0 else hget m.pre m.store (uKey uid) channel

/-- The store `add` produces: the conditional retraction followed by the
three index writes. -/
def addStore (pre : String) (st : Store) (c u s : String) : Store :=
  hset pre
    (sadd pre
      (hset pre
        (if truthy (hget pre st (uKey u) c) then srem pre st (sKey c s) u else st)
        (uKey u) c s)
      (sKey c s) u)
    (cKey c) u s

/-- The store `leave` produces for a resolved server `r`: the two hash
deletions and, when `r` is truthy, the set removal. -/
def leaveStore (pre : String) (st : Store) (c u : String) (r : Option String) : Store :=
  if truthy r then
    srem pre (hdel pre (hdel pre st (uKey u) c) (cKey c) u) (sKey c (r.getD "")) u
  else hdel pre (hdel pre st (uKey u) c) (cKey c) u

theorem mAdd_eq (m : MgrState) (c u s : String) (h : m.redisUp = true) :
    mAdd m c u s = { m with store := addStore m.pre m.store c u s } := by
  simp [mAdd, addStore, h]

theorem mLeave_eq (m : MgrState) (c u : String) (so : Option String)
    (h : m.redisUp = true) :
    mLeave m c u so = { m with store := leaveStore m.pre m.store c u (leaveSid m c u so) } := by
  simp [mLeave, leaveStore, leaveSid, h]

end GlobalChannel

namespace GlobalChannel

theorem cKey_ne_of_ne {a b : String} (h : a ≠ b) : cKey a ≠ cKey b :=
  fun he => h (cKey_inj he)

theorem uKey_ne_of_ne {a b : String} (h : a ≠ b) : uKey a ≠ uKey b :=
  fun he => h (uKey_inj he)

theorem mAdd_redisUp (m : MgrState) (c u s : String) :
    (mAdd m c u s).redisUp = m.redisUp := by
  cases h : m.redisUp <;> simp [mAdd, h]

theorem mAdd_pre (m : MgrState) (c u s : String) : (mAdd m c u s).pre = m.pre := by
  cases h : m.redisUp <;> simp [mAdd, h]

theorem mLeave_redisUp (m : MgrState) (c u : String) (so : Option String) :
    (mLeave m c u so).redisUp = m.redisUp := by
  cases h : m.redisUp <;> simp [mLeave, h]

theorem mLeave_pre (m : MgrState) (c u : String) (so : Option String) :
    (mLeave m c u so).pre = m.pre := by
  cases h : m.redisUp <;> simp [mLeave, h]

theorem addStore_hash_c (pre : String) (st : Store) (c u s : String) :
    hashAt (addStore pre st c u s) (pre ++ cKey c) = aset (hashAt st (pre ++ cKey c)) u s := by
  unfold addStore
  rw [hashAt_hset_self]
  rw [hashAt_sadd_ne _ _ _ _ _ (cKey_ne_sKey c c s)]
  rw [hashAt_hset_ne _ _ _ _ _ _ (cKey_ne_uKey c u)]
  split
  · rw [hashAt_srem_ne _ _ _ _ _ (cKey_ne_sKey c c s)]
  · rfl

theorem addStore_hash_c_ne (pre : String) (st : Store) (c u s c' : String) (hc : c' ≠ c) :
    hashAt (addStore pre st c u s) (pre ++ cKey c') = hashAt st (pre ++ cKey c') := by
  unfold addStore
  rw [hashAt_hset_ne _ _ _ _ _ _ (cKey_ne_of_ne hc)]
  rw [hashAt_sadd_ne _ _ _ _ _ (cKey_ne_sKey c' c s)]
  rw [hashAt_hset_ne _ _ _ _ _ _ (cKey_ne_uKey c' u)]
  split
  · rw [hashAt_srem_ne _ _ _ _ _ (cKey_ne_sKey c' c s)]
  · rfl

theorem addStore_hash_u (pre : String) (st : Store) (c u s : String) :
    hashAt (addStore pre st c u s) (pre ++ uKey u) = aset (hashAt st (pre ++ uKey u)) c s := by
  unfold addStore
  rw [hashAt_hset_ne _ _ _ _ _ _ (Ne.symm (cKey_ne_uKey c u))]
  rw [hashAt_sadd_ne _ _ _ _ _ (uKey_ne_sKey u c s)]
  rw [hashAt_hset_self]
  split
  · rw [hashAt_srem_ne _ _ _ _ _ (uKey_ne_sKey u c s)]
  · rfl

theorem addStore_hash_u_ne (pre : String) (st : Store) (c u s u' : String) (hu : u' ≠ u) :
    hashAt (addStore pre st c u s) (pre ++ uKey u') = hashAt st (pre ++ uKey u') := by
  unfold addStore
  rw [hashAt_hset_ne _ _ _ _ _ _ (Ne.symm (cKey_ne_uKey c u'))]
  rw [hashAt_sadd_ne _ _ _ _ _ (uKey_ne_sKey u' c s)]
  rw [hashAt_hset_ne _ _ _ _ _ _ (uKey_ne_of_ne hu)]
  split
  · rw [hashAt_srem_ne _ _ _ _ _ (uKey_ne_sKey u' c s)]
  · rfl

theorem addStore_mem_set (pre : String) (st : Store) (c u s : String) :
    u ∈ setAt (addStore pre st c u s) (pre ++ sKey c s) := by
  unfold addStore
  rw [setAt_hset_ne _ _ _ _ _ _ (Ne.symm (cKey_ne_sKey c c s))]
  rw [setAt_sadd_self]
  exact mem_slAdd_self _ _

theorem addStore_set_frame (pre : String) (st : Store) (c u s a b x : String) (hx : x ≠ u) :
    (x ∈ setAt (addStore pre st c u s) (pre ++ sKey a b)) ↔ (x ∈ setAt st (pre ++ sKey a b)) := by
  unfold addStore
  rw [setAt_hset_ne _ _ _ _ _ _ (Ne.symm (cKey_ne_sKey c a b))]
  by_cases hk : sKey a b = sKey c s
  · rw [hk, setAt_sadd_self, mem_slAdd_of_ne hx]
    rw [setAt_hset_ne _ _ _ _ _ _ (Ne.symm (uKey_ne_sKey u c s))]
    split
    · rw [setAt_srem_self, mem_slRem_of_ne hx]
    · exact Iff.rfl
  · rw [setAt_sadd_ne _ _ _ _ _ hk]
    rw [setAt_hset_ne _ _ _ _ _ _ (Ne.symm (uKey_ne_sKey u a b))]
    split
    · rw [setAt_srem_ne _ _ _ _ _ hk]
    · exact Iff.rfl

theorem addStore_set_ne (pre : String) (st : Store) (c u s a b : String)
    (hk : sKey a b ≠ sKey c s) :
    setAt (addStore pre st c u s) (pre ++ sKey a b) = setAt st (pre ++ sKey a b) := by
  unfold addStore
  rw [setAt_hset_ne _ _ _ _ _ _ (Ne.symm (cKey_ne_sKey c a b))]
  rw [setAt_sadd_ne _ _ _ _ _ hk]
  rw [setAt_hset_ne _ _ _ _ _ _ (Ne.symm (uKey_ne_sKey u a b))]
  split
  · rw [setAt_srem_ne _ _ _ _ _ hk]
  · rfl

theorem leaveStore_hash_c (pre : String) (st : Store) (c u : String) (r : Option String) :
    hashAt (leaveStore pre st c u r) (pre ++ cKey c) = aremove (hashAt st (pre ++ cKey c)) u := by
  unfold leaveStore
  split
  · rw [hashAt_srem_ne _ _ _ _ _ (cKey_ne_sKey c c (r.getD ""))]
    rw [hashAt_hdel_self]
    rw [hashAt_hdel_ne _ _ _ _ _ (cKey_ne_uKey c u)]
  · rw [hashAt_hdel_self]
    rw [hashAt_hdel_ne _ _ _ _ _ (cKey_ne_uKey c u)]

theorem leaveStore_hash_c_ne (pre : String) (st : Store) (c u : String) (r : Option String)
    (c' : String) (hc : c' ≠ c) :
    hashAt (leaveStore pre st c u r) (pre ++ cKey c') = hashAt st (pre ++ cKey c') := by
  unfold leaveStore
  split
  · rw [hashAt_srem_ne _ _ _ _ _ (cKey_ne_sKey c' c (r.getD ""))]
    rw [hashAt_hdel_ne _ _ _ _ _ (cKey_ne_of_ne hc)]
    rw [hashAt_hdel_ne _ _ _ _ _ (cKey_ne_uKey c' u)]
  · rw [hashAt_hdel_ne _ _ _ _ _ (cKey_ne_of_ne hc)]
    rw [hashAt_hdel_ne _ _ _ _ _ (cKey_ne_uKey c' u)]

theorem leaveStore_hash_u (pre : String) (st : Store) (c u : String) (r : Option String) :
    hashAt (leaveStore pre st c u r) (pre ++ uKey u) = aremove (hashAt st (pre ++ uKey u)) c := by
  unfold leaveStore
  split
  · rw [hashAt_srem_ne _ _ _ _ _ (uKey_ne_sKey u c (r.getD ""))]
    rw [hashAt_hdel_ne _ _ _ _ _ (Ne.symm (cKey_ne_uKey c u))]
    rw [hashAt_hdel_self]
  · rw [hashAt_hdel_ne _ _ _ _ _ (Ne.symm (cKey_ne_uKey c u))]
    rw [hashAt_hdel_self]

theorem leaveStore_hash_u_ne (pre : String) (st : Store) (c u : String) (r : Option String)
    (u' : String) (hu : u' ≠ u) :
    hashAt (leaveStore pre st c u r) (pre ++ uKey u') = hashAt st (pre ++ uKey u') := by
  unfold leaveStore
  split
  · rw [hashAt_srem_ne _ _ _ _ _ (uKey_ne_sKey u' c (r.getD ""))]
    rw [hashAt_hdel_ne _ _ _ _ _ (Ne.symm (cKey_ne_uKey c u'))]
    rw [hashAt_hdel_ne _ _ _ _ _ (uKey_ne_of_ne hu)]
  · rw [hashAt_hdel_ne _ _ _ _ _ (Ne.symm (cKey_ne_uKey c u'))]
    rw [hashAt_hdel_ne _ _ _ _ _ (uKey_ne_of_ne hu)]

theorem leaveStore_set_frame (pre : String) (st : Store) (c u : String) (r : Option String)
    (a b x : String) (hx : x ≠ u) :
    (x ∈ setAt (leaveStore pre st c u r) (pre ++ sKey a b)) ↔
      (x ∈ setAt st (pre ++ sKey a b)) := by
  unfold leaveStore
  split
  · by_cases hk : sKey a b = sKey c (r.getD "")
    · rw [hk, setAt_srem_self, mem_slRem_of_ne hx]
      rw [setAt_hdel_ne _ _ _ _ _ (Ne.symm (cKey_ne_sKey c c (r.getD "")))]
      rw [setAt_hdel_ne _ _ _ _ _ (Ne.symm (uKey_ne_sKey u c (r.getD "")))]
    · rw [setAt_srem_ne _ _ _ _ _ hk]
      rw [setAt_hdel_ne _ _ _ _ _ (Ne.symm (cKey_ne_sKey c a b))]
      rw [setAt_hdel_ne _ _ _ _ _ (Ne.symm (uKey_ne_sKey u a b))]
  · rw [setAt_hdel_ne _ _ _ _ _ (Ne.symm (cKey_ne_sKey c a b))]
    rw [setAt_hdel_ne _ _ _ _ _ (Ne.symm (uKey_ne_sKey u a b))]

theorem leaveStore_set_truthy (pre : String) (st : Store) (c u : String) (r : Option String)
    (hr : truthy r = true) :
    setAt (leaveStore pre st c u r) (pre ++ sKey c (r.getD "")) =
      slRem (setAt st (pre ++ sKey c (r.getD ""))) u := by
  unfold leaveStore
  rw [if_pos hr]
  rw [setAt_srem_self]
  rw [setAt_hdel_ne _ _ _ _ _ (Ne.symm (cKey_ne_sKey c c (r.getD "")))]
  rw [setAt_hdel_ne _ _ _ _ _ (Ne.symm (uKey_ne_sKey u c (r.getD "")))]

theorem leaveStore_set_untruthy (pre : String) (st : Store) (c u : String)
    (r : Option String) (a b : String) (hr : truthy r = false) :
    setAt (leaveStore pre st c u r) (pre ++ sKey a b) = setAt st (pre ++ sKey a b) := by
  unfold leaveStore
  rw [if_neg (by simp [hr])]
  rw [setAt_hdel_ne _ _ _ _ _ (Ne.symm (cKey_ne_sKey c a b))]
  rw [setAt_hdel_ne _ _ _ _ _ (Ne.symm (uKey_ne_sKey u a b))]

theorem leaveStore_set_truthy_ne (pre : String) (st : Store) (c u : String)
    (r : Option String) (a b : String) (hk : sKey a b ≠ sKey c (r.getD "")) :
    setAt (leaveStore pre st c u r) (pre ++ sKey a b) = setAt st (pre ++ sKey a b) := by
  unfold leaveStore
  split
  · rw [setAt_srem_ne _ _ _ _ _ hk]
    rw [setAt_hdel_ne _ _ _ _ _ (Ne.symm (cKey_ne_sKey c a b))]
    rw [setAt_hdel_ne _ _ _ _ _ (Ne.symm (uKey_ne_sKey u a b))]
  · rw [setAt_hdel_ne _ _ _ _ _ (Ne.symm (cKey_ne_sKey c a b))]
    rw [setAt_hdel_ne _ _ _ _ _ (Ne.symm (uKey_ne_sKey u a b))]

theorem mIsmember_eq (m : MgrState) (c u : String) (h : m.redisUp = true) :
    mIsmember m c u = some ((alookup (mgrHash m (cKey c)) u).isSome) := by
  simp [mIsmember, hexists, mgrHash, h]

theorem mMembers_none_eq (m : MgrState) (c : String) (h : m.redisUp = true) :
    mMembers m c none = some ((mgrHash m (cKey c)).map (fun p => p.1)) := by
  simp [mMembers, h, truthy, hkeys, mgrHash]

theorem mMembers_some_eq (m : MgrState) (c s : String) (h : m.redisUp = true)
    (hs : s ≠ "") : mMembers m c (some s) = some (mgrSet m (sKey c s)) := by
  simp [mMembers, h, truthy, hs, smembers, mgrSet]

theorem mMembers_blank_eq (m : MgrState) (c : String) (h : m.redisUp = true) :
    mMembers m c (some "") = some ((mgrHash m (cKey c)).map (fun p => p.1)) := by
  simp [mMembers, h, truthy, hkeys, mgrHash]

theorem mChannels_eq (m : MgrState) (u : String) (h : m.redisUp = true) :
    mChannels m u = (mgrHash m (uKey u)).map (fun p => p.1) := by
  simp [mChannels, h, hkeys, mgrHash]

theorem mLen_eq (m : MgrState) (c : String) (h : m.redisUp = true) :
    mLen m c = some ((mgrHash m (cKey c)).length) := by
  simp [mLen, h, hlen, mgrHash]

end GlobalChannel

namespace GlobalChannel

/-- A freshly connected manager over an empty database with an empty key
prefix. -/
def mgrInit : MgrState := { pre := "", redisUp := true, store := [] }

/-- A freshly constructed service (state Inited), no startup cleanup. -/
def svcInit : SvcState :=
  { state := STATE.inited, cleanOnStartUp := false,
    mgr := { pre := "", redisUp := false, store := [] } }

/-- The manager state after `add("lobby","u1","s1")` then
`add("lobby","u1","s2")` from the empty database. -/
def moveState : MgrState := mAdd (mAdd mgrInit "lobby" "u1" "s1") "lobby" "u1" "s2"

/-- C1: the claim says that after `add(c,u,s1)` then `add(c,u,s2)` with
`s1 ≠ s2`, `members(c,s1)` no longer contains `u` and exactly one server is
recorded for `(c,u)` across all three indexes.  The code fetches the old
server from the `u#` hash but then removes the user from the set of the NEW
server id (`s#name:sid` with the freshly passed `sid`), so the old
`(channel,server)->user` entry `s#lobby:s1` still contains `u1` after the
move, while the `c#` and `u#` hashes both already point at `s2`. -/
theorem add_move_keeps_stale_entry :
    mMembers moveState "lobby" (some "s1") = some ["u1"] ∧
    mMembers moveState "lobby" (some "s2") = some ["u1"] ∧
    hget "" moveState.store (uKey "u1") "lobby" = some "s2" ∧
    hget "" moveState.store (cKey "lobby") "u1" = some "s2" := by decide

/-- C5: every facade operation other than start/stop, issued while the state
is not Started, leaves the service state (and hence the store) unchanged and
returns an undefined/empty result instead of touching the store. -/
theorem not_started_ops_are_noops (s : SvcState) (h : s.state ≠ STATE.started) :
    (∀ c u sid, svcAdd s c u sid = s) ∧
    (∀ c u so, svcLeave s c u so = s) ∧
    (∀ c, svcDestroy s c = s) ∧
    (∀ c, svcLen s c = none) ∧
    (∀ c so, svcMembers s c so = none) ∧
    (∀ c u, svcIsmember s c u = none) ∧
    (∀ u, svcChannels s u = none) ∧
    (∀ app t r msg c, svcPushMessage app s t r msg c = (none, [])) := by
  refine ⟨?_, ?_, ?_, ?_, ?_, ?_, ?_, ?_⟩ <;> intros <;>
    simp [svcAdd, svcLeave, svcDestroy, svcLen, svcMembers, svcIsmember,
      svcChannels, svcPushMessage, h]

/-- Witness for C5 at a concrete Inited service. -/
theorem not_started_ops_are_noops_witness :
    (svcInit.state ≠ STATE.started) ∧
    svcAdd svcInit "lobby" "u1" "s1" = svcInit ∧
    svcLen svcInit "lobby" = none ∧
    svcIsmember svcInit "lobby" "u1" = none ∧
    svcPushMessage (fun _ => ["s1"]) svcInit "connector" "chat" "hi" "lobby" = (none, []) :=
  ⟨by decide,
   (not_started_ops_are_noops svcInit (by decide)).1 "lobby" "u1" "s1",
   (not_started_ops_are_noops svcInit (by decide)).2.2.2.1 "lobby",
   (not_started_ops_are_noops svcInit (by decide)).2.2.2.2.2.1 "lobby" "u1",
   (not_started_ops_are_noops svcInit (by decide)).2.2.2.2.2.2.2
     (fun _ => ["s1"]) "connector" "chat" "hi" "lobby"⟩

/-- C7 (amended): `start` moves the service to Started from every state
(including Closed), `stop` moves it to Closed from every state, and every
other facade operation leaves the lifecycle state unchanged; Closed is
therefore not terminal. -/
theorem lifecycle_transitions_amended (s : SvcState) :
    ((svcStep s SvcOp.startOp).state = STATE.started) ∧
    (∀ f, (svcStep s (SvcOp.stopOp f)).state = STATE.closed) ∧
    (∀ c u sid, (svcStep s (SvcOp.addOp c u sid)).state = s.state) ∧
    (∀ c u so, (svcStep s (SvcOp.leaveOp c u so)).state = s.state) ∧
    (∀ c, (svcStep s (SvcOp.destroyOp c)).state = s.state) ∧
    (∀ c, (svcStep s (SvcOp.lenOp c)).state = s.state) ∧
    (∀ c so, (svcStep s (SvcOp.membersOp c so)).state = s.state) ∧
    (∀ c u, (svcStep s (SvcOp.ismemberOp c u)).state = s.state) ∧
    (∀ u, (svcStep s (SvcOp.channelsOp u)).state = s.state) ∧
    (∀ t r msg c, (svcStep s (SvcOp.pushMessageOp t r msg c)).state = s.state) := by
  refine ⟨?_, ?_, ?_, ?_, ?_, ?_, ?_, ?_, ?_, ?_⟩
  · cases hc : s.cleanOnStartUp <;> simp [svcStep, svcStart, hc]
  · intro f
    simp [svcStep, svcStop]
  · intro c u sid
    by_cases hs : s.state = STATE.started <;> simp [svcStep, svcAdd, hs]
  · intro c u so
    by_cases hs : s.state = STATE.started <;> simp [svcStep, svcLeave, hs]
  · intro c
    by_cases hs : s.state = STATE.started <;> simp [svcStep, svcDestroy, hs]
  · intro c
    simp [svcStep]
  · intro c so
    simp [svcStep]
  · intro c u
    simp [svcStep]
  · intro u
    simp [svcStep]
  · intro t r msg c
    simp [svcStep]

/-- C7 (counterexample to the claim as stated): running `start`, `stop`,
`start` from the initial state ends in the Started state, so a sequence of
operations performed after `stop` does return the service to Started: the
Closed state is not terminal in the code. -/
theorem closed_not_terminal_counterexample :
    (svcRun svcInit [SvcOp.startOp, SvcOp.stopOp true]).state = STATE.closed ∧
    (svcRun svcInit [SvcOp.startOp, SvcOp.stopOp true, SvcOp.startOp]).state = STATE.started ∧
    STATE.started ≠ STATE.closed := by decide

/-- A service configured for startup cleanup with key prefix `P#`, over a
database holding the registry key `P#c#lobby` (one member of channel
`lobby`). -/
def svcClean : SvcState :=
  { state := STATE.inited, cleanOnStartUp := true,
    mgr := { pre := "P#", redisUp := false,
             store := [("P#c#lobby", RVal.hash [("u1", "s1")])] } }

/-- C8: the claim says the startup cleanup sweep deletes every key matching
the registry prefix, so that no registry key remains after `start`.  In the
code the sweep SCANs the full (prefixed) key names, but then passes them to
`redis.del`, which prepends the ioredis key prefix once more; the deletions
therefore target nonexistent `P#P#...` keys and the registry keys survive:
after `start` the store is unchanged and `len("lobby")` still reports 1. -/
theorem cleanup_sweep_misses_registry_key :
    strHasPre "P#" "P#c#lobby" = true ∧
    (svcStart svcClean).state = STATE.started ∧
    (svcStart svcClean).mgr.store = svcClean.mgr.store ∧
    svcLen (svcStart svcClean) "lobby" = some 1 := by decide

/-- C10 (counterexample to the claim as stated): the `s#channel:server` key
scheme aliases when names contain a colon: `add("a","u1","b:c")` writes the
set key `s#a:b:c`, which is also the key read by `members("a:b","c")`, so the
membership of the distinct pair (channel `a:b`, user `u1`) changes. -/
theorem add_frame_counterexample :
    ((("a:b" : String), ("u1" : String)) ≠ (("a" : String), ("u1" : String))) ∧
    ("u1" ∉ (mMembers mgrInit "a:b" (some "c")).getD []) ∧
    ("u1" ∈ (mMembers (mAdd mgrInit "a" "u1" "b:c") "a:b" (some "c")).getD []) := by
  decide

end GlobalChannel

namespace GlobalChannel

theorem hget_eq_mgrHash (m : MgrState) (k f : String) :
    hget m.pre m.store k f = alookup (mgrHash m k) f := rfl

theorem mAdd_mgrHash_c (m : MgrState) (c u s : String) (h : m.redisUp = true) :
    mgrHash (mAdd m c u s) (cKey c) = aset (mgrHash m (cKey c)) u s := by
  rw [mAdd_eq _ _ _ _ h]
  show hashAt (addStore m.pre m.store c u s) (m.pre ++ cKey c) = _
  exact addStore_hash_c _ _ _ _ _

theorem mAdd_mgrHash_c_ne (m : MgrState) (c u s c' : String) (h : m.redisUp = true)
    (hc : c' ≠ c) : mgrHash (mAdd m c u s) (cKey c') = mgrHash m (cKey c') := by
  rw [mAdd_eq _ _ _ _ h]
  show hashAt (addStore m.pre m.store c u s) (m.pre ++ cKey c') = _
  exact addStore_hash_c_ne _ _ _ _ _ _ hc

theorem mAdd_mgrHash_u (m : MgrState) (c u s : String) (h : m.redisUp = true) :
    mgrHash (mAdd m c u s) (uKey u) = aset (mgrHash m (uKey u)) c s := by
  rw [mAdd_eq _ _ _ _ h]
  show hashAt (addStore m.pre m.store c u s) (m.pre ++ uKey u) = _
  exact addStore_hash_u _ _ _ _ _

theorem mAdd_mgrHash_u_ne (m : MgrState) (c u s u' : String) (h : m.redisUp = true)
    (hu : u' ≠ u) : mgrHash (mAdd m c u s) (uKey u') = mgrHash m (uKey u') := by
  rw [mAdd_eq _ _ _ _ h]
  show hashAt (addStore m.pre m.store c u s) (m.pre ++ uKey u') = _
  exact addStore_hash_u_ne _ _ _ _ _ _ hu

theorem mAdd_mem_set (m : MgrState) (c u s : String) (h : m.redisUp = true) :
    u ∈ mgrSet (mAdd m c u s) (sKey c s) := by
  rw [mAdd_eq _ _ _ _ h]
  show u ∈ setAt (addStore m.pre m.store c u s) (m.pre ++ sKey c s)
  exact addStore_mem_set _ _ _ _ _

theorem mAdd_set_frame (m : MgrState) (c u s a b x : String) (h : m.redisUp = true)
    (hx : x ≠ u) :
    (x ∈ mgrSet (mAdd m c u s) (sKey a b)) ↔ (x ∈ mgrSet m (sKey a b)) := by
  rw [mAdd_eq _ _ _ _ h]
  show (x ∈ setAt (addStore m.pre m.store c u s) (m.pre ++ sKey a b)) ↔ _
  exact addStore_set_frame _ _ _ _ _ _ _ _ hx

theorem mAdd_set_ne (m : MgrState) (c u s a b : String) (h : m.redisUp = true)
    (hk : sKey a b ≠ sKey c s) :
    mgrSet (mAdd m c u s) (sKey a b) = mgrSet m (sKey a b) := by
  rw [mAdd_eq _ _ _ _ h]
  show setAt (addStore m.pre m.store c u s) (m.pre ++ sKey a b) = _
  exact addStore_set_ne _ _ _ _ _ _ _ hk

theorem mLeave_mgrHash_c (m : MgrState) (c u : String) (so : Option String)
    (h : m.redisUp = true) :
    mgrHash (mLeave m c u so) (cKey c) = aremove (mgrHash m (cKey c)) u := by
  rw [mLeave_eq _ _ _ _ h]
  show hashAt (leaveStore m.pre m.store c u (leaveSid m c u so)) (m.pre ++ cKey c) = _
  exact leaveStore_hash_c _ _ _ _ _

theorem mLeave_mgrHash_c_ne (m : MgrState) (c u : String) (so : Option String)
    (c' : String) (h : m.redisUp = true) (hc : c' ≠ c) :
    mgrHash (mLeave m c u so) (cKey c') = mgrHash m (cKey c') := by
  rw [mLeave_eq _ _ _ _ h]
  show hashAt (leaveStore m.pre m.store c u (leaveSid m c u so)) (m.pre ++ cKey c') = _
  exact leaveStore_hash_c_ne _ _ _ _ _ _ hc

theorem mLeave_mgrHash_u (m : MgrState) (c u : String) (so : Option String)
    (h : m.redisUp = true) :
    mgrHash (mLeave m c u so) (uKey u) = aremove (mgrHash m (uKey u)) c := by
  rw [mLeave_eq _ _ _ _ h]
  show hashAt (leaveStore m.pre m.store c u (leaveSid m c u so)) (m.pre ++ uKey u) = _
  exact leaveStore_hash_u _ _ _ _ _

theorem mLeave_mgrHash_u_ne (m : MgrState) (c u : String) (so : Option String)
    (u' : String) (h : m.redisUp = true) (hu : u' ≠ u) :
    mgrHash (mLeave m c u so) (uKey u') = mgrHash m (uKey u') := by
  rw [mLeave_eq _ _ _ _ h]
  show hashAt (leaveStore m.pre m.store c u (leaveSid m c u so)) (m.pre ++ uKey u') = _
  exact leaveStore_hash_u_ne _ _ _ _ _ _ hu

theorem mLeave_set_frame (m : MgrState) (c u : String) (so : Option String)
    (a b x : String) (h : m.redisUp = true) (hx : x ≠ u) :
    (x ∈ mgrSet (mLeave m c u so) (sKey a b)) ↔ (x ∈ mgrSet m (sKey a b)) := by
  rw [mLeave_eq _ _ _ _ h]
  show (x ∈ setAt (leaveStore m.pre m.store c u (leaveSid m c u so)) (m.pre ++ sKey a b)) ↔ _
  exact leaveStore_set_frame _ _ _ _ _ _ _ _ hx

theorem mLeave_set_truthy (m : MgrState) (c u : String) (so : Option String)
    (h : m.redisUp = true) (hr : truthy (leaveSid m c u so) = true) :
    mgrSet (mLeave m c u so) (sKey c ((leaveSid m c u so).getD "")) =
      slRem (mgrSet m (sKey c ((leaveSid m c u so).getD ""))) u := by
  rw [mLeave_eq _ _ _ _ h]
  show setAt (leaveStore m.pre m.store c u (leaveSid m c u so))
      (m.pre ++ sKey c ((leaveSid m c u so).getD "")) = _
  exact leaveStore_set_truthy _ _ _ _ _ hr

theorem mLeave_set_untruthy (m : MgrState) (c u : String) (so : Option String)
    (a b : String) (h : m.redisUp = true) (hr : truthy (leaveSid m c u so) = false) :
    mgrSet (mLeave m c u so) (sKey a b) = mgrSet m (sKey a b) := by
  rw [mLeave_eq _ _ _ _ h]
  show setAt (leaveStore m.pre m.store c u (leaveSid m c u so)) (m.pre ++ sKey a b) = _
  exact leaveStore_set_untruthy _ _ _ _ _ _ _ hr

theorem mLeave_set_truthy_ne (m : MgrState) (c u : String) (so : Option String)
    (a b : String) (h : m.redisUp = true)
    (hk : sKey a b ≠ sKey c ((leaveSid m c u so).getD "")) :
    mgrSet (mLeave m c u so) (sKey a b) = mgrSet m (sKey a b) := by
  rw [mLeave_eq _ _ _ _ h]
  show setAt (leaveStore m.pre m.store c u (leaveSid m c u so)) (m.pre ++ sKey a b) = _
  exact leaveStore_set_truthy_ne _ _ _ _ _ _ _ hk

theorem svcAdd_started (s : SvcState) (c u sid : String) (h : s.state = STATE.started) :
    svcAdd s c u sid = { s with mgr := mAdd s.mgr c u sid } := by
  simp [svcAdd, h]

theorem svcLeave_started (s : SvcState) (c u : String) (so : Option String)
    (h : s.state = STATE.started) :
    svcLeave s c u so = { s with mgr := mLeave s.mgr c u so } := by
  simp [svcLeave, h]

theorem svcDestroy_started (s : SvcState) (c : String) (h : s.state = STATE.started) :
    svcDestroy s c = { s with mgr := mDestroy s.mgr c } := by
  simp [svcDestroy, h]

theorem svcIsmember_started (s : SvcState) (c u : String) (h : s.state = STATE.started) :
    svcIsmember s c u = mIsmember s.mgr c u := by
  simp [svcIsmember, h]

theorem svcMembers_started (s : SvcState) (c : String) (so : Option String)
    (h : s.state = STATE.started) : svcMembers s c so = mMembers s.mgr c so := by
  simp [svcMembers, h]

theorem svcChannels_started (s : SvcState) (u : String) (h : s.state = STATE.started) :
    svcChannels s u = some (mChannels s.mgr u) := by
  simp [svcChannels, h]

theorem svcLen_started (s : SvcState) (c : String) (h : s.state = STATE.started) :
    svcLen s c = mLen s.mgr c := by
  simp [svcLen, h]

end GlobalChannel

namespace GlobalChannel

theorem svcIsmember_mk (st : STATE) (cl : Bool) (M : MgrState) (c u : String)
    (h : st = STATE.started) :
    svcIsmember { state := st, cleanOnStartUp := cl, mgr := M } c u = mIsmember M c u := by
  simp [svcIsmember, h]

theorem svcMembers_mk (st : STATE) (cl : Bool) (M : MgrState) (c : String)
    (so : Option String) (h : st = STATE.started) :
    svcMembers { state := st, cleanOnStartUp := cl, mgr := M } c so = mMembers M c so := by
  simp [svcMembers, h]

theorem svcChannels_mk (st : STATE) (cl : Bool) (M : MgrState) (u : String)
    (h : st = STATE.started) :
    svcChannels { state := st, cleanOnStartUp := cl, mgr := M } u = some (mChannels M u) := by
  simp [svcChannels, h]

theorem svcLen_mk (st : STATE) (cl : Bool) (M : MgrState) (c : String)
    (h : st = STATE.started) :
    svcLen { state := st, cleanOnStartUp := cl, mgr := M } c = mLen M c := by
  simp [svcLen, h]

theorem svcLeave_mk (st : STATE) (cl : Bool) (M : MgrState) (c u : String)
    (so : Option String) (h : st = STATE.started) :
    svcLeave { state := st, cleanOnStartUp := cl, mgr := M } c u so =
      { state := st, cleanOnStartUp := cl, mgr := mLeave M c u so } := by
  simp [svcLeave, h]

theorem svcDestroy_mk (st : STATE) (cl : Bool) (M : MgrState) (c : String)
    (h : st = STATE.started) :
    svcDestroy { state := st, cleanOnStartUp := cl, mgr := M } c =
      { state := st, cleanOnStartUp := cl, mgr := mDestroy M c } := by
  simp [svcDestroy, h]

theorem mAdd_ismember (m : MgrState) (c u sid : String) (h : m.redisUp = true) :
    mIsmember (mAdd m c u sid) c u = some true := by
  have hup : (mAdd m c u sid).redisUp = true := by
    rw [mAdd_redisUp]
    exact h
  rw [mIsmember_eq _ _ _ hup, mAdd_mgrHash_c _ _ _ _ h, alookup_aset_self]
  rfl

theorem mAdd_mem_members (m : MgrState) (c u sid : String) (h : m.redisUp = true) :
    u ∈ (mMembers (mAdd m c u sid) c (some sid)).getD [] := by
  have hup : (mAdd m c u sid).redisUp = true := by
    rw [mAdd_redisUp]
    exact h
  by_cases hs : sid = ""
  · subst hs
    rw [mMembers_blank_eq _ _ hup]
    show u ∈ (mgrHash (mAdd m c u "") (cKey c)).map (fun p => p.1)
    rw [mAdd_mgrHash_c _ _ _ _ h]
    exact mem_keys_aset_self _ _ _
  · rw [mMembers_some_eq _ _ _ hup hs]
    show u ∈ mgrSet (mAdd m c u sid) (sKey c sid)
    exact mAdd_mem_set _ _ _ _ h

theorem mLeave_after_mAdd (m : MgrState) (c u sid : String) (h : m.redisUp = true) :
    mIsmember (mLeave (mAdd m c u sid) c u none) c u = some false ∧
    u ∉ (mMembers (mLeave (mAdd m c u sid) c u none) c (some sid)).getD [] ∧
    c ∉ mChannels (mLeave (mAdd m c u sid) c u none) u := by
  have hup1 : (mAdd m c u sid).redisUp = true := by
    rw [mAdd_redisUp]
    exact h
  have hup2 : (mLeave (mAdd m c u sid) c u none).redisUp = true := by
    rw [mLeave_redisUp]
    exact hup1
  have hsid : leaveSid (mAdd m c u sid) c u none = some sid := by
    show (if truthy none then none
          else hget (mAdd m c u sid).pre (mAdd m c u sid).store (uKey u) c) = some sid
    rw [if_neg (by simp [truthy])]
    rw [hget_eq_mgrHash, mAdd_mgrHash_u _ _ _ _ h, alookup_aset_self]
  refine ⟨?_, ?_, ?_⟩
  · rw [mIsmember_eq _ _ _ hup2, mLeave_mgrHash_c _ _ _ _ hup1, alookup_aremove_self]
    rfl
  · by_cases hs : sid = ""
    · subst hs
      rw [mMembers_blank_eq _ _ hup2]
      show u ∉ (mgrHash (mLeave (mAdd m c u "") c u none) (cKey c)).map (fun p => p.1)
      rw [mLeave_mgrHash_c _ _ _ _ hup1]
      exact not_mem_keys_of_alookup_none (alookup_aremove_self _ _)
    · rw [mMembers_some_eq _ _ _ hup2 hs]
      show u ∉ mgrSet (mLeave (mAdd m c u sid) c u none) (sKey c sid)
      have htr : truthy (leaveSid (mAdd m c u sid) c u none) = true := by
        rw [hsid]
        simp [truthy, hs]
      have hset := mLeave_set_truthy (mAdd m c u sid) c u none hup1 htr
      rw [hsid] at hset
      show u ∉ mgrSet (mLeave (mAdd m c u sid) c u none) (sKey c ((some sid).getD ""))
      rw [hset]
      exact not_mem_slRem_self _ _
  · rw [mChannels_eq _ _ hup2, mLeave_mgrHash_u _ _ _ _ hup1]
    exact not_mem_keys_of_alookup_none (alookup_aremove_self _ _)

/-- C2: from any Started service with a live store, after `add(c,u,s)` the
query `ismember(c,u)` reports true and `members(c,s)` contains `u`. -/
theorem add_then_member_queries (s : SvcState) (c u sid : String)
    (h1 : s.state = STATE.started) (h2 : s.mgr.redisUp = true) :
    svcIsmember (svcAdd s c u sid) c u = some true ∧
    u ∈ (svcMembers (svcAdd s c u sid) c (some sid)).getD [] := by
  rw [svcAdd_started s c u sid h1]
  rw [svcIsmember_mk _ _ _ _ _ h1, svcMembers_mk _ _ _ _ _ h1]
  exact ⟨mAdd_ismember s.mgr c u sid h2, mAdd_mem_members s.mgr c u sid h2⟩

/-- Witness for C2 at a concrete started service. -/
theorem add_then_member_queries_witness :
    ((svcStart svcInit).state = STATE.started) ∧
    ((svcStart svcInit).mgr.redisUp = true) ∧
    svcIsmember (svcAdd (svcStart svcInit) "lobby" "u1" "srvA") "lobby" "u1" = some true ∧
    "u1" ∈ (svcMembers (svcAdd (svcStart svcInit) "lobby" "u1" "srvA") "lobby"
      (some "srvA")).getD [] :=
  ⟨by decide, by decide,
   (add_then_member_queries (svcStart svcInit) "lobby" "u1" "srvA" (by decide) (by decide)).1,
   (add_then_member_queries (svcStart svcInit) "lobby" "u1" "srvA" (by decide) (by decide)).2⟩

/-- C3: from any Started service with a live store, after `add(c,u,s)` then
`leave(c,u)` with the server omitted, the server is resolved through the
user index and the record disappears from all three indexes: `ismember(c,u)`
is false, `members(c,s)` no longer contains `u`, and `channels(u)` no longer
lists `c`. -/
theorem leave_removes_membership (s : SvcState) (c u sid : String)
    (h1 : s.state = STATE.started) (h2 : s.mgr.redisUp = true) :
    svcIsmember (svcLeave (svcAdd s c u sid) c u none) c u = some false ∧
    u ∉ (svcMembers (svcLeave (svcAdd s c u sid) c u none) c (some sid)).getD [] ∧
    c ∉ (svcChannels (svcLeave (svcAdd s c u sid) c u none) u).getD [] := by
  rw [svcAdd_started s c u sid h1]
  rw [svcLeave_mk _ _ _ _ _ _ h1]
  rw [svcIsmember_mk _ _ _ _ _ h1, svcMembers_mk _ _ _ _ _ h1, svcChannels_mk _ _ _ _ h1]
  refine ⟨(mLeave_after_mAdd s.mgr c u sid h2).1,
    (mLeave_after_mAdd s.mgr c u sid h2).2.1, ?_⟩
  show c ∉ (some (mChannels (mLeave (mAdd s.mgr c u sid) c u none) u)).getD []
  exact (mLeave_after_mAdd s.mgr c u sid h2).2.2

/-- Witness for C3 at a concrete started service. -/
theorem leave_removes_membership_witness :
    ((svcStart svcInit).state = STATE.started) ∧
    ((svcStart svcInit).mgr.redisUp = true) ∧
    svcIsmember (svcLeave (svcAdd (svcStart svcInit) "lobby" "u1" "srvA") "lobby" "u1" none)
      "lobby" "u1" = some false ∧
    "u1" ∉ (svcMembers (svcLeave (svcAdd (svcStart svcInit) "lobby" "u1" "srvA")
      "lobby" "u1" none) "lobby" (some "srvA")).getD [] ∧
    "lobby" ∉ (svcChannels (svcLeave (svcAdd (svcStart svcInit) "lobby" "u1" "srvA")
      "lobby" "u1" none) "u1").getD [] :=
  ⟨by decide, by decide,
   (leave_removes_membership (svcStart svcInit) "lobby" "u1" "srvA" (by decide) (by decide)).1,
   (leave_removes_membership (svcStart svcInit) "lobby" "u1" "srvA" (by decide) (by decide)).2.1,
   (leave_removes_membership (svcStart svcInit) "lobby" "u1" "srvA" (by decide) (by decide)).2.2⟩

end GlobalChannel

namespace GlobalChannel

theorem colon_split_list {l1 : List Char} : ∀ {l2 r1 r2 : List Char}, ':' ∉ l1 → ':' ∉ l2 →
    l1 ++ ':' :: r1 = l2 ++ ':' :: r2 → l1 = l2 ∧ r1 = r2 := by
  induction l1 with
  | nil =>
    intro l2 r1 r2 _ h2 he
    cases l2 with
    | nil => simpa using he
    | cons y t =>
      simp only [List.nil_append, List.cons_append, List.cons.injEq] at he
      exact absurd (by simp [← he.1]) h2
  | cons x t ih =>
    intro l2 r1 r2 h1 h2 he
    cases l2 with
    | nil =>
      simp only [List.nil_append, List.cons_append, List.cons.injEq] at he
      exact absurd (by simp [he.1]) h1
    | cons y t2 =>
      simp only [List.cons_append, List.cons.injEq] at he
      obtain ⟨hxy, ht⟩ := he
      have h1' : ':' ∉ t := fun hm => h1 (List.mem_cons_of_mem _ hm)
      have h2' : ':' ∉ t2 := fun hm => h2 (List.mem_cons_of_mem _ hm)
      obtain ⟨ha, hb⟩ := ih h1' h2' ht
      exact ⟨by rw [hxy, ha], hb⟩

theorem sKey_inj_of_colonfree {c s c' s' : String} (hc : ':' ∉ c.data)
    (hc' : ':' ∉ c'.data) (h : sKey c s = sKey c' s') : c = c' ∧ s = s' := by
  have h2 : 's' :: '#' :: ((c.data ++ [':']) ++ s.data) =
      's' :: '#' :: ((c'.data ++ [':']) ++ s'.data) := congrArg String.data h
  have h3 : (c.data ++ [':']) ++ s.data = (c'.data ++ [':']) ++ s'.data :=
    (List.cons.inj (List.cons.inj h2).2).2
  rw [List.append_assoc, List.append_assoc, List.singleton_append,
    List.singleton_append] at h3
  obtain ⟨hcd, hsd⟩ := colon_split_list hc hc' h3
  exact ⟨string_data_inj hcd, string_data_inj hsd⟩

/-- C10 (amended): for colon-free channel names, `add(c,u,s)` leaves the
membership of every other pair (c',u') unchanged: `ismember(c',u')` and, for
every server s', the presence of u' in `members(c',s')`, are the same before
and after.  (Without the colon-freeness restriction the `s#channel:server`
key scheme aliases distinct (channel, server) pairs.) -/
theorem add_frame_amended (m : MgrState) (c u s c' u' : String)
    (hc : ':' ∉ c.data) (hc' : ':' ∉ c'.data) (hne : (c', u') ≠ (c, u)) :
    mIsmember (mAdd m c u s) c' u' = mIsmember m c' u' ∧
    (∀ s', (u' ∈ (mMembers (mAdd m c u s) c' (some s')).getD []) ↔
      (u' ∈ (mMembers m c' (some s')).getD [])) := by
  cases hr : m.redisUp with
  | false =>
    have hid : mAdd m c u s = m := by simp [mAdd, hr]
    rw [hid]
    exact ⟨rfl, fun s' => Iff.rfl⟩
  | true =>
    have hup : (mAdd m c u s).redisUp = true := by
      rw [mAdd_redisUp]
      exact hr
    constructor
    · rw [mIsmember_eq _ _ _ hup, mIsmember_eq _ _ _ hr]
      by_cases hcc : c' = c
      · subst hcc
        have hu : u' ≠ u := fun he => hne (by rw [he])
        rw [mAdd_mgrHash_c _ _ _ _ hr, alookup_aset_ne _ _ _ _ hu]
      · rw [mAdd_mgrHash_c_ne _ _ _ _ _ hr hcc]
    · intro s'
      by_cases hs' : s' = ""
      · subst hs'
        rw [mMembers_blank_eq _ _ hup, mMembers_blank_eq _ _ hr]
        simp only [Option.getD_some]
        by_cases hcc : c' = c
        · subst hcc
          have hu : u' ≠ u := fun he => hne (by rw [he])
          rw [mAdd_mgrHash_c _ _ _ _ hr]
          exact mem_keys_aset_of_ne _ _ _ _ hu
        · rw [mAdd_mgrHash_c_ne _ _ _ _ _ hr hcc]
      · rw [mMembers_some_eq _ _ _ hup hs', mMembers_some_eq _ _ _ hr hs']
        simp only [Option.getD_some]
        by_cases hu : u' = u
        · have hcc : c' ≠ c := fun he => hne (by rw [he, hu])
          have hk : sKey c' s' ≠ sKey c s := fun he =>
            hcc (sKey_inj_of_colonfree hc' hc he).1
          rw [mAdd_set_ne _ _ _ _ _ _ hr hk]
        · exact mAdd_set_frame _ _ _ _ _ _ _ hr hu

/-- Witness for the amended C10 at a concrete state. -/
theorem add_frame_amended_witness :
    (':' ∉ ("lobby" : String).data) ∧
    ((("lobby" : String), ("u2" : String)) ≠ (("lobby" : String), ("u1" : String))) ∧
    mIsmember (mAdd mgrInit "lobby" "u1" "s1") "lobby" "u2" =
      mIsmember mgrInit "lobby" "u2" ∧
    (("u2" ∈ (mMembers (mAdd mgrInit "lobby" "u1" "s1") "lobby" (some "s1")).getD []) ↔
      ("u2" ∈ (mMembers mgrInit "lobby" (some "s1")).getD [])) :=
  ⟨by decide, by decide,
   (add_frame_amended mgrInit "lobby" "u1" "s1" "lobby" "u2"
     (by decide) (by decide) (by decide)).1,
   (add_frame_amended mgrInit "lobby" "u1" "s1" "lobby" "u2"
     (by decide) (by decide) (by decide)).2 "s1"⟩

end GlobalChannel

namespace GlobalChannel

theorem push_foldl (s : SvcState) (channel route msg : String) :
    ∀ (servers : List String) (acc : List String × List RpcCall),
    servers.foldl (pushStep s channel route msg) acc =
      (acc.1 ++ ((servers.filter (fun sid => !(memberList s channel sid).isEmpty)).map
        (fun sid => memberList s channel sid)).flatten,
       acc.2 ++ (servers.filter (fun sid => !(memberList s channel sid).isEmpty)).map
        (fun sid => { serverId := sid, ns := "sys", service := "channelRemote",
                      method := "pushMessage", route := route, msg := msg,
                      uids := memberList s channel sid, isPush := true })) := by
  intro servers
  induction servers with
  | nil =>
    intro acc
    simp
  | cons sid rest ih =>
    intro acc
    simp only [List.foldl_cons]
    rw [ih]
    cases hsm : svcMembers s channel (some sid) with
    | none =>
      have hml : memberList s channel sid = [] := by simp [memberList, hsm]
      simp [pushStep, hsm, hml]
    | some uids =>
      have hml : memberList s channel sid = uids := by simp [memberList, hsm]
      by_cases hm : uids.isEmpty
      · simp [pushStep, hsm, hml, hm]
      · simp [pushStep, hsm, hml, hm, List.append_assoc]

/-- C6: `pushMessage` issues an RPC envelope to exactly those resolved
servers whose per-server member list (as the service's own members query
reports it) is non-empty, in directory order, and every envelope carries
namespace `sys`, service `channelRemote`, method `pushMessage`, the route,
the payload, that server's member list and the isPush flag.  (Outside the
Started state, and for an empty directory answer, no call is issued and the
right-hand side is also empty.) -/
theorem pushMessage_calls_characterization (app : String → List String) (s : SvcState)
    (stype route msg channel : String) :
    (svcPushMessage app s stype route msg channel).2 =
      ((app stype).filter (fun sid => !(memberList s channel sid).isEmpty)).map
        (fun sid => { serverId := sid, ns := "sys", service := "channelRemote",
                      method := "pushMessage", route := route, msg := msg,
                      uids := memberList s channel sid, isPush := true }) := by
  by_cases h1 : s.state = STATE.started
  · by_cases h2 : (app stype).isEmpty
    · have he : app stype = [] := List.isEmpty_iff.mp h2
      simp [svcPushMessage, h1, he]
    · simp only [svcPushMessage, h1, ne_eq, not_true_eq_false, if_false, h2,
        Bool.false_eq_true, if_true]
      rw [push_foldl]
      simp
  · have hm : ∀ sid, memberList s channel sid = [] := by
      intro sid
      simp [memberList, svcMembers, h1]
    simp [svcPushMessage, h1, hm]

/-- C9: in the Started state with a non-empty resolved server list,
`pushMessage` returns the concatenation of the per-server member lists of the
targeted servers (the aggregate of targeted uids): the result is the `users`
aggregate, not a list of delivery failures. -/
theorem pushMessage_returns_targeted_users (app : String → List String) (s : SvcState)
    (stype route msg channel : String) (h1 : s.state = STATE.started)
    (h2 : app stype ≠ []) :
    (svcPushMessage app s stype route msg channel).1 =
      some (((app stype).filter (fun sid => !(memberList s channel sid).isEmpty)).map
        (fun sid => memberList s channel sid)).flatten := by
  have h2' : (app stype).isEmpty = false := by
    cases hl : app stype with
    | nil => exact absurd hl h2
    | cons a t => simp
  simp only [svcPushMessage, h1, ne_eq, not_true_eq_false, if_false, h2',
    Bool.false_eq_true, if_true]
  rw [push_foldl]
  simp

/-- The cluster directory of the push scenario: two connector servers. -/
def appDemo : String → List String :=
  fun t => if t = "connector" then ["srvA", "srvB"] else []

/-- A started service in which `u1` joined channel `lobby` on `srvA`. -/
def svcDemo : SvcState := svcAdd (svcStart svcInit) "lobby" "u1" "srvA"

/-- Witness for C9 at the push scenario. -/
theorem pushMessage_returns_targeted_users_witness :
    (svcDemo.state = STATE.started) ∧
    (appDemo "connector" ≠ []) ∧
    ((svcPushMessage appDemo svcDemo "connector" "chat" "hi" "lobby").1 =
      some (((appDemo "connector").filter
        (fun sid => !(memberList svcDemo "lobby" sid).isEmpty)).map
        (fun sid => memberList svcDemo "lobby" sid)).flatten) :=
  ⟨by decide, by decide,
   pushMessage_returns_targeted_users appDemo svcDemo "connector" "chat" "hi" "lobby"
     (by decide) (by decide)⟩

end GlobalChannel

namespace GlobalChannel

/-- The `u#` and `c#` hashes agree on channel `c`: the server the user index
records for `(u, c)` is exactly the one the channel hash records for `u`. -/
def InvA (m : MgrState) (c : String) : Prop :=
  ∀ u, alookup (mgrHash m (uKey u)) c = alookup (mgrHash m (cKey c)) u

/-- Every user in a (truthy-named) per-server set of channel `c` is recorded
in the channel hash with exactly that server. -/
def InvB (m : MgrState) (c : String) : Prop :=
  ∀ s, s ≠ "" → ∀ u, u ∈ mgrSet m (sKey c s) → alookup (mgrHash m (cKey c)) u = some s

theorem add_preserves_inv (m : MgrState) (c u s : String) (h : m.redisUp = true)
    (hA : InvA m c) (hB : InvB m c)
    (hfresh : alookup (mgrHash m (cKey c)) u = none) :
    InvA (mAdd m c u s) c ∧ InvB (mAdd m c u s) c := by
  constructor
  · intro u'
    rw [mAdd_mgrHash_c _ _ _ _ h]
    by_cases hu : u' = u
    · subst hu
      rw [mAdd_mgrHash_u _ _ _ _ h, alookup_aset_self, alookup_aset_self]
    · rw [mAdd_mgrHash_u_ne _ _ _ _ _ h hu, alookup_aset_ne _ _ _ _ hu]
      exact hA u'
  · intro s' hs' u' hmem
    rw [mAdd_mgrHash_c _ _ _ _ h]
    by_cases hu : u' = u
    · subst hu
      by_cases hk : sKey c s' = sKey c s
      · have hss : s' = s := sKey_fixed_inj hk
        subst hss
        rw [alookup_aset_self]
      · rw [mAdd_set_ne _ _ _ _ _ _ h hk] at hmem
        have := hB s' hs' u' hmem
        rw [hfresh] at this
        exact absurd this (by simp)
    · rw [alookup_aset_ne _ _ _ _ hu]
      rw [mAdd_set_frame _ _ _ _ _ _ _ h hu] at hmem
      exact hB s' hs' u' hmem

theorem add_keeps_fresh (m : MgrState) (c u s u'' : String) (h : m.redisUp = true)
    (hne : u'' ≠ u) (hf : alookup (mgrHash m (cKey c)) u'' = none) :
    alookup (mgrHash (mAdd m c u s) (cKey c)) u'' = none := by
  rw [mAdd_mgrHash_c _ _ _ _ h, alookup_aset_ne _ _ _ _ hne]
  exact hf

theorem leave_preserves_inv (m : MgrState) (c u0 : String) (h : m.redisUp = true)
    (hA : InvA m c) (hB : InvB m c) :
    InvA (mLeave m c u0 none) c ∧ InvB (mLeave m c u0 none) c ∧
    mgrHash (mLeave m c u0 none) (cKey c) = aremove (mgrHash m (cKey c)) u0 := by
  have hr_eq : leaveSid m c u0 none = alookup (mgrHash m (cKey c)) u0 := by
    show (if truthy none then none else hget m.pre m.store (uKey u0) c) = _
    rw [if_neg (by simp [truthy]), hget_eq_mgrHash]
    exact hA u0
  refine ⟨?_, ?_, mLeave_mgrHash_c _ _ _ _ h⟩
  · intro u
    rw [mLeave_mgrHash_c _ _ _ _ h]
    by_cases hu : u = u0
    · subst hu
      rw [mLeave_mgrHash_u _ _ _ _ h, alookup_aremove_self, alookup_aremove_self]
    · rw [mLeave_mgrHash_u_ne _ _ _ _ _ h hu, alookup_aremove_ne _ _ _ hu]
      exact hA u
  · intro s hs u hmem
    rw [mLeave_mgrHash_c _ _ _ _ h]
    have hu : u ≠ u0 ∧ u ∈ mgrSet m (sKey c s) := by
      cases htr : truthy (leaveSid m c u0 none) with
      | false =>
        rw [mLeave_set_untruthy _ _ _ _ _ _ h htr] at hmem
        refine ⟨?_, hmem⟩
        intro he
        subst he
        have hlk := hB s hs u hmem
        rw [hr_eq, hlk] at htr
        simp [truthy, hs] at htr
      | true =>
        by_cases hk : sKey c s = sKey c ((leaveSid m c u0 none).getD "")
        · rw [hk] at hmem
          rw [mLeave_set_truthy _ _ _ _ h htr] at hmem
          obtain ⟨hin, hne⟩ := mem_of_mem_slRem hmem
          rw [← hk] at hin
          exact ⟨hne, hin⟩
        · rw [mLeave_set_truthy_ne _ _ _ _ _ _ h hk] at hmem
          refine ⟨?_, hmem⟩
          intro he
          subst he
          have hlk := hB s hs u hmem
          apply hk
          rw [hr_eq, hlk]
          rfl
    rw [alookup_aremove_ne _ _ _ hu.1]
    exact hB s hs u hu.2

end GlobalChannel

namespace GlobalChannel

theorem build_inv (c : String) : ∀ (pairs : List (String × String)) (m : MgrState),
    m.redisUp = true → InvA m c → InvB m c →
    (∀ p ∈ pairs, alookup (mgrHash m (cKey c)) p.1 = none) →
    (pairs.map Prod.fst).Nodup →
    ((pairs.foldl (fun acc p => mAdd acc c p.1 p.2) m).redisUp = true ∧
     InvA (pairs.foldl (fun acc p => mAdd acc c p.1 p.2) m) c ∧
     InvB (pairs.foldl (fun acc p => mAdd acc c p.1 p.2) m) c) := by
  intro pairs
  induction pairs with
  | nil =>
    intro m hup hA hB _ _
    exact ⟨hup, hA, hB⟩
  | cons p rest ih =>
    intro m hup hA hB hfresh hnd
    simp only [List.foldl_cons]
    have hup' : (mAdd m c p.1 p.2).redisUp = true := by
      rw [mAdd_redisUp]
      exact hup
    have hfp := hfresh p (List.mem_cons_self _ _)
    obtain ⟨hA', hB'⟩ := add_preserves_inv m c p.1 p.2 hup hA hB hfp
    have hnd' : ((p :: rest).map Prod.fst).Nodup := hnd
    rw [List.map_cons, List.nodup_cons] at hnd'
    apply ih (mAdd m c p.1 p.2) hup' hA' hB'
    · intro q hq
      have hqne : q.1 ≠ p.1 := by
        intro he
        exact hnd'.1 (he ▸ List.mem_map_of_mem Prod.fst hq)
      exact add_keeps_fresh m c p.1 p.2 q.1 hup hqne (hfresh q (List.mem_cons_of_mem _ hq))
    · exact hnd'.2

theorem destroy_loop (c : String) : ∀ (ms : List String) (m : MgrState),
    m.redisUp = true → InvA m c → InvB m c →
    (∀ p ∈ mgrHash m (cKey c), p.1 ∈ ms) →
    ((ms.foldl (fun acc uid => mLeave acc c uid none) m).redisUp = true ∧
     mgrHash (ms.foldl (fun acc uid => mLeave acc c uid none) m) (cKey c) = [] ∧
     (∀ s, s ≠ "" →
       mgrSet (ms.foldl (fun acc uid => mLeave acc c uid none) m) (sKey c s) = []) ∧
     (∀ u, alookup (mgrHash (ms.foldl (fun acc uid => mLeave acc c uid none) m) (uKey u)) c
       = none)) := by
  intro ms
  induction ms with
  | nil =>
    intro m hup hA hB hcov
    simp only [List.foldl_nil]
    have hempty : mgrHash m (cKey c) = [] := by
      cases hl : mgrHash m (cKey c) with
      | nil => rfl
      | cons q t =>
        have := hcov q (by rw [hl]; exact List.mem_cons_self _ _)
        simp at this
    refine ⟨hup, hempty, ?_, ?_⟩
    · intro s hs
      cases hl : mgrSet m (sKey c s) with
      | nil => rfl
      | cons x t =>
        have hx := hB s hs x (by rw [hl]; exact List.mem_cons_self _ _)
        rw [hempty] at hx
        simp [alookup] at hx
    · intro u
      rw [hA u, hempty]
      rfl
  | cons u0 rest ih =>
    intro m hup hA hB hcov
    simp only [List.foldl_cons]
    have hup' : (mLeave m c u0 none).redisUp = true := by
      rw [mLeave_redisUp]
      exact hup
    obtain ⟨hA', hB', hCh⟩ := leave_preserves_inv m c u0 hup hA hB
    apply ih (mLeave m c u0 none) hup' hA' hB'
    intro p hp
    rw [hCh] at hp
    obtain ⟨hin, hne⟩ := mem_of_mem_aremove hp
    have hpm := hcov p hin
    rw [List.mem_cons] at hpm
    rcases hpm with h1 | h1
    · exact absurd h1 hne
    · exact h1

theorem mDestroy_eq (m : MgrState) (c : String) (h : m.redisUp = true) :
    mDestroy m c =
      ((mMembers m c none).getD []).foldl (fun acc uid => mLeave acc c uid none) m := by
  simp [mDestroy, h]

/-- C4: channel `c` populated from the empty database by joins of pairwise
distinct users on arbitrary servers; `destroy(c)` then removes every
membership record of `c` from all three indexes: `len(c)` is 0, `members(c)`
is empty, no user is a member, every per-server member list of `c` is empty,
and no user's channel list still names `c`. -/
theorem destroy_after_distinct_adds (pre c : String) (pairs : List (String × String))
    (hnd : (pairs.map Prod.fst).Nodup) :
    mLen (mDestroy (buildAdds pre c pairs) c) c = some 0 ∧
    mMembers (mDestroy (buildAdds pre c pairs) c) c none = some [] ∧
    (∀ u, mIsmember (mDestroy (buildAdds pre c pairs) c) c u = some false) ∧
    (∀ s, mMembers (mDestroy (buildAdds pre c pairs) c) c (some s) = some []) ∧
    (∀ u, c ∉ mChannels (mDestroy (buildAdds pre c pairs) c) u) := by
  have h0A : InvA { pre := pre, redisUp := true, store := [] } c := fun u => rfl
  have h0B : InvB { pre := pre, redisUp := true, store := [] } c := by
    intro s hs u hmem
    simp [mgrSet, setAt, alookup] at hmem
  have h0fresh : ∀ p ∈ pairs,
      alookup (mgrHash { pre := pre, redisUp := true, store := [] } (cKey c)) p.1 = none :=
    fun p _ => rfl
  obtain ⟨hupb, hAb, hBb⟩ :=
    build_inv c pairs { pre := pre, redisUp := true, store := [] } rfl h0A h0B h0fresh hnd
  have hupb' : (buildAdds pre c pairs).redisUp = true := hupb
  have hAb' : InvA (buildAdds pre c pairs) c := hAb
  have hBb' : InvB (buildAdds pre c pairs) c := hBb
  rw [mDestroy_eq _ _ hupb']
  have hms : (mMembers (buildAdds pre c pairs) c none).getD [] =
      (mgrHash (buildAdds pre c pairs) (cKey c)).map (fun p => p.1) := by
    rw [mMembers_none_eq _ _ hupb']
    rfl
  rw [hms]
  obtain ⟨hupf, hempty, hsets, huval⟩ :=
    destroy_loop c ((mgrHash (buildAdds pre c pairs) (cKey c)).map (fun p => p.1))
      (buildAdds pre c pairs) hupb' hAb' hBb'
      (fun p hp => List.mem_map_of_mem _ hp)
  refine ⟨?_, ?_, ?_, ?_, ?_⟩
  · rw [mLen_eq _ _ hupf, hempty]
    rfl
  · rw [mMembers_none_eq _ _ hupf, hempty]
    rfl
  · intro u
    rw [mIsmember_eq _ _ _ hupf, hempty]
    rfl
  · intro s
    by_cases hs : s = ""
    · subst hs
      rw [mMembers_blank_eq _ _ hupf, hempty]
      rfl
    · rw [mMembers_some_eq _ _ _ hupf hs, hsets s hs]
  · intro u
    rw [mChannels_eq _ _ hupf]
    exact not_mem_keys_of_alookup_none (huval u)

/-- Witness for C4 at three distinct users over two servers. -/
theorem destroy_after_distinct_adds_witness :
    ((([("u1", "s1"), ("u2", "s1"), ("u3", "s2")] : List (String × String)).map
      Prod.fst).Nodup) ∧
    mLen (mDestroy (buildAdds "" "lobby" [("u1", "s1"), ("u2", "s1"), ("u3", "s2")])
      "lobby") "lobby" = some 0 ∧
    mMembers (mDestroy (buildAdds "" "lobby" [("u1", "s1"), ("u2", "s1"), ("u3", "s2")])
      "lobby") "lobby" none = some [] ∧
    mMembers (mDestroy (buildAdds "" "lobby" [("u1", "s1"), ("u2", "s1"), ("u3", "s2")])
      "lobby") "lobby" (some "s1") = some [] ∧
    "lobby" ∉ mChannels (mDestroy (buildAdds "" "lobby"
      [("u1", "s1"), ("u2", "s1"), ("u3", "s2")]) "lobby") "u1" :=
  ⟨by decide,
   (destroy_after_distinct_adds "" "lobby" _ (by decide)).1,
   (destroy_after_distinct_adds "" "lobby" _ (by decide)).2.1,
   (destroy_after_distinct_adds "" "lobby" _ (by decide)).2.2.2.1 "s1",
   (destroy_after_distinct_adds "" "lobby" _ (by decide)).2.2.2.2 "u1"⟩

end GlobalChannel
